import Mathlib

/-!
Verification of the retrieval-fusion and context-budgeted conversation
orchestration core of the `legal_mern_chatbot` RAG service.

The Python source (`rag_service/src/hybrid_retriever.py`,
`rag_service/src/rag_pipeline.py`) is shallowly embedded below.  Python
strings are modelled as Lean `String`s, with the string primitives the code
uses (`lower`, `strip`, `split`, slicing, substring tests) re-implemented
structurally over `String.data` so that every definition evaluates by kernel
reduction.  Floating point scores are modelled as rationals.  The external
collaborators (the BM25 library, the FAISS vector store, the Groq text
generator, the Mongo-backed conversation store) are parameters: they appear
as function-valued fields of the `Pipeline` structure or as arguments, and
only the logic of this repository is defined concretely.
-/

namespace LegalRag

/-! ### Python string primitives, re-implemented structurally -/

/-- Python `str.lower()` (ASCII case folding, as used on the ASCII data of
this service), on character lists. -/
def lowerChars (l : List Char) : List Char := l.map Char.toLower

/-- Python `str.strip()`: drop leading and trailing whitespace. -/
def trimChars (l : List Char) : List Char :=
  ((l.dropWhile Char.isWhitespace).reverse.dropWhile Char.isWhitespace).reverse

/-- Helper for `pyWords`: accumulates the current word (reversed) while
scanning. -/
def pyWordsAux : List Char → List Char → List (List Char)
  | [], acc => if acc = [] then [] else [acc.reverse]
  | c :: rest, acc =>
    if c.isWhitespace then
      if acc = [] then pyWordsAux rest [] else acc.reverse :: pyWordsAux rest []
    else pyWordsAux rest (c :: acc)

/-- Python `str.split()` with no separator: maximal non-whitespace runs, no
empty pieces. -/
def pyWords (l : List Char) : List (List Char) := pyWordsAux l []

/-- Python `len(s.split())`: the word count used by the greeting classifier
and the rewrite heuristic. -/
def pyWordCount (s : String) : Nat := (pyWords s.data).length

/-- Python `s.lower()` on strings. -/
def pyLower (s : String) : String := ⟨lowerChars s.data⟩

/-- Python `s.strip()` on strings. -/
def pyStrip (s : String) : String := ⟨trimChars s.data⟩

/-- Python `pat in s` (substring containment) on character lists. -/
def containsChars (needle : List Char) : List Char → Bool
  | [] => needle.isEmpty
  | c :: rest => needle.isPrefixOf (c :: rest) || containsChars needle rest

/-- Python `pat in s` on strings. -/
def strContains (s pat : String) : Bool := containsChars pat.data s.data

/-- Python `s[-n:]` (for `n > 0`): the trailing `n` characters. -/
def takeRightStr (s : String) (n : Nat) : String := ⟨s.data.drop (s.data.length - n)⟩

/-- Python `s[:n]`: the leading `n` characters. -/
def takeStr (s : String) (n : Nat) : String := ⟨s.data.take n⟩

/-- Python `"\n\n".join(parts)`, the blank-line separator used by
`retrieve_context`. -/
def joinBlank : List String → String
  | [] => ""
  | [s] => s
  | s :: rest => s ++ "\n\n" ++ joinBlank rest

/-! ### Tokenization and token estimation (`rag_pipeline.py` / `hybrid_retriever.py`) -/

/-- Query tokenization of `HybridRetriever.search`:
`query.lower().split()` followed by dropping tokens of length `<= 1`. -/
def tokenize (s : String) : List String :=
  ((pyWords (lowerChars s.data)).filter (fun w => 1 < w.length)).map (fun w => (⟨w⟩ : String))

/-- `RAGPipeline._estimate_tokens`: `0` for empty text, else
`max(1, len(text) // 4)`. -/
def estimateTokens (s : String) : Nat :=
  if s = "" then 0 else max 1 (s.length / 4)

/-! ### Reciprocal rank fusion (`HybridRetriever.search`) -/

/-- Stable insertion (descending by score) used by `sortDesc`. -/
def insertDesc (p : Nat × ℚ) : List (Nat × ℚ) → List (Nat × ℚ)
  | [] => [p]
  | q :: rest => if p.2 < q.2 then q :: insertDesc p rest else p :: q :: rest

/-- Python `sorted(pairs, key=lambda x: x[1], reverse=True)`: stable sort by
score, descending. -/
def sortDesc : List (Nat × ℚ) → List (Nat × ℚ)
  | [] => []
  | p :: rest => insertDesc p (sortDesc rest)

/-- `np.argsort(scores)[::-1]`: the corpus indices ordered by descending
score (ties broken deterministically). -/
def argsortDesc (xs : List ℚ) : List Nat :=
  (sortDesc ((List.range xs.length).map (fun i => (i, xs.getD i 0)))).map Prod.fst

/-- The vector ranking of `HybridRetriever.search`: each vector-search hit is
mapped back to its corpus index by first exact text match
(`self.documents.index(doc)`), hits with no match are skipped
(`except ValueError: pass`). -/
def vectorRanked (documents : List String) (vres : List (String × ℚ)) : List Nat :=
  vres.filterMap (fun p => documents.findIdx? (fun d => d == p.1))

/-- One dict update
`rrf_scores[doc_idx] = rrf_scores.get(doc_idx, 0) + v` on the
insertion-ordered association list modelling the Python dict. -/
def bump : List (Nat × ℚ) → Nat → ℚ → List (Nat × ℚ)
  | [], i, v => [(i, v)]
  | p :: rest, i, v =>
    if p.1 = i then (p.1, p.2 + v) :: rest else p :: bump rest i v

/-- The loop `for rank, doc_idx in enumerate(ranked): rrf_scores[doc_idx] += w / (60 + rank + 1)`,
started at rank `r`. -/
def addRanks (w : ℚ) : List Nat → Nat → List (Nat × ℚ) → List (Nat × ℚ)
  | [], _, m => m
  | i :: rest, r, m => addRanks w rest (r + 1) (bump m i (w / (60 + (r : ℚ) + 1)))

/-- The RRF score dict of `HybridRetriever.search`: BM25 contributions
(weight 1) added first, then vector contributions (weight `alpha`). -/
def rrfMap (bm25Top vecTop : List Nat) (alpha : ℚ) : List (Nat × ℚ) :=
  addRanks alpha vecTop 0 (addRanks 1 bm25Top 0 [])

/-- The RRF pool for a query: both ranked lists truncated to their top `3k`
entries, then fused. -/
def rrfPool (documents : List String) (bm25Scores : List ℚ)
    (vres : List (String × ℚ)) (k : Nat) (alpha : ℚ) : List (Nat × ℚ) :=
  rrfMap ((argsortDesc bm25Scores).take (k * 3)) ((vectorRanked documents vres).take (k * 3)) alpha

/-- The tail of `HybridRetriever.search`: sort the dict items by RRF score
descending, take the top `k`, and map surviving indices
(`if doc_idx < len(self.documents)`) to `(passage text, rrf score)` pairs. -/
def fusionResults (documents : List String) (pool : List (Nat × ℚ)) (k : Nat) :
    List (String × ℚ) :=
  ((sortDesc pool).take k).filterMap (fun p =>
    if h : p.1 < documents.length then some (documents.get ⟨p.1, h⟩, p.2) else none)

/-- `HybridRetriever.search(query, k, alpha)`.  The external collaborators are
parameters: `bm25Get` is `BM25Okapi.get_scores` on the tokenized query and
`vsearch` is `self.vector_store.search(query, ·)` for this query. -/
def hybridSearch (documents : List String) (bm25Get : List String → List ℚ)
    (vsearch : Nat → List (String × ℚ)) (query : String) (k : Nat) (alpha : ℚ) :
    List (String × ℚ) :=
  if (tokenize query).isEmpty then vsearch k
  else
    fusionResults documents
      (rrfPool documents (bm25Get (tokenize query)) (vsearch documents.length) k alpha) k

/-! ### Specification-side score formula (for stating the fusion claims) -/

/-- The 0-based position of `j` in a ranked list, when present. -/
def rankOf (j : Nat) : List Nat → Option Nat
  | [] => none
  | i :: rest => if i = j then some 0 else (rankOf j rest).map (· + 1)

/-- The reciprocal-rank contribution of one source, as the specification
states it: `w / (60 + rank + 1)` when `j` appears in the (truncated) ranked
list at 0-based position `rank`, and `0` otherwise. -/
def rrfContrib (w : ℚ) (l : List Nat) (j : Nat) : ℚ :=
  match rankOf j l with
  | some r => w / (60 + (r : ℚ) + 1)
  | none => 0

/-- The accumulated contribution of a ranked list (with first rank `r`) to
index `j`, counting every occurrence; used to relate the dict fold to
`rrfContrib`. -/
def sumContrib (w : ℚ) : List Nat → Nat → Nat → ℚ
  | [], _, _ => 0
  | i :: rest, r, j =>
    (if i = j then w / (60 + (r : ℚ) + 1) else 0) + sumContrib w rest (r + 1) j

/-- Dict lookup with default `0`, `rrf_scores.get(i, 0)`. -/
def lookup0 (m : List (Nat × ℚ)) (i : Nat) : ℚ :=
  match m.find? (fun p => p.1 == i) with
  | some p => p.2
  | none => 0

/-! ### Context assembly (`RAGPipeline.retrieve_context`) -/

/-- The filter/fallback tail of `RAGPipeline.retrieve_context`, applied to the
result list of the retriever: keep passages with score strictly above `0.2`;
if that excludes everything while results exist, fall back to the raw top-`k`;
join with a blank line. -/
def retrieveContextFrom (results : List (String × ℚ)) (k : Nat) : String :=
  let contextParts := (results.filter (fun p => (0.2 : ℚ) < p.2)).map Prod.fst
  let contextParts₂ :=
    if contextParts = [] ∧ results ≠ [] then (results.take k).map Prod.fst else contextParts
  joinBlank contextParts₂

/-! ### Turn classification (`RAGPipeline.is_greeting` / `is_informational`) -/

/-- The single-word greeting list of `is_greeting`. -/
def greetWords : List String := ["hi", "hey", "hello", "yo", "thanks", "thx", "bye"]

/-- The polite-phrase list of `is_greeting`. -/
def greetPhrases : List String :=
  ["good morning", "good night", "good evening", "thank you", "thanks a lot"]

/-- The legal-keyword list of `is_informational`. -/
def legalKeywords : List String :=
  ["article", "section", "act", "law", "rights", "ipc", "judgment", "judgement",
   "court", "statute", "contract", "evidence", "penalty", "fine", "offence", "crime",
   "liable", "liability", "divorce", "marriage", "custody", "writ", "injunction"]

/-- `RAGPipeline.is_greeting(query)`: on the stripped, lowercased query,
either a single word from `greetWords`, or — only when the query has at most
two words — one of the `greetPhrases`. -/
def isGreeting (query : String) : Bool :=
  if query = "" then false
  else
    let q := pyLower (pyStrip query)
    if pyWordCount q = 1 ∧ q ∈ greetWords then true
    else if pyWordCount q ≤ 2 ∧ q ∈ greetPhrases then true
    else false

/-- `RAGPipeline.is_informational(query)`: a question mark, length above 40,
or a legal keyword occurring as a substring. -/
def isInformational (query : String) : Bool :=
  if query = "" then false
  else
    let q := pyLower (pyStrip query)
    if strContains q "?" then true
    else if 40 < q.length then true
    else legalKeywords.any (fun kw => strContains q kw)

/-- Specification-side greeting classification, as the (amended) claim states
it: a single word drawn from the fixed list, or a query of at most two words
equal to one of the fixed polite phrases. -/
def greetingSpec (query : String) : Prop :=
  (pyWordCount (pyLower (pyStrip query)) = 1 ∧ pyLower (pyStrip query) ∈ greetWords) ∨
  (pyWordCount (pyLower (pyStrip query)) ≤ 2 ∧ pyLower (pyStrip query) ∈ greetPhrases)

/-- Specification-side informational classification: contains `?`, exceeds 40
characters, or contains a legal keyword. -/
def informationalSpec (query : String) : Prop :=
  strContains (pyLower (pyStrip query)) "?" = true ∨
  40 < (pyLower (pyStrip query)).length ∨
  ∃ kw ∈ legalKeywords, strContains (pyLower (pyStrip query)) kw = true

/-! ### The pipeline object and its collaborators -/

/-- The `RAGPipeline` object.  Function-valued fields are the external
collaborators: `bm25Get` the BM25 library, `vsearch` the vector store,
`completeAnswer`/`completeRewrite` the two Groq call sites (indexed by the
prompt they receive, `Except.error` modelling a raised exception),
`getContext` the conversation store read, and `summarize` the combined
`ensure_summary_limit` + re-read step, indexed by session and by loop
iteration (`none` modelling a raised exception).  `minK` is `self.min_k`
(`1` in the source) and `retrieveK` the `RETRIEVE_K` environment value. -/
structure Pipeline where
  documents : List String
  bm25Get : List String → List ℚ
  vsearch : String → Nat → List (String × ℚ)
  hybridAvailable : Bool
  isInitialized : Bool
  modelMaxTokens : Nat
  reservedResponseTokens : Nat
  retrieveK : Nat
  minK : Nat
  completeAnswer : String → Except String String
  completeRewrite : String → Except String String
  getContext : String → String
  summarize : String → Nat → Option String

/-- `RAGPipeline.retrieve_context(query, k)`: empty before initialization;
hybrid search with `alpha = 0.9` when the hybrid retriever exists, otherwise
vector-only search; then the threshold filter with top-`k` fallback. -/
def retrieveContext (P : Pipeline) (query : String) (k : Nat) : String :=
  if P.isInitialized = false then ""
  else
    let results :=
      if P.hybridAvailable then
        hybridSearch P.documents P.bm25Get (P.vsearch query) query k (0.9 : ℚ)
      else P.vsearch query k
    retrieveContextFrom results k

/-- The user prompt built by `RAGPipeline.generate_response`. -/
def userPrompt (conversationContext context query : String) : String :=
  "Conversation:\n" ++ conversationContext ++ "\n\nContext:\n" ++ context ++
    "\n\nQuestion: " ++ query

/-- `RAGPipeline.generate_response`: on a generator exception the formatted
string `"Error generating response: ..."` is returned in place of the
answer. -/
def generateResponse (P : Pipeline) (query context conversationContext : String) : String :=
  match P.completeAnswer (userPrompt conversationContext context query) with
  | Except.ok t => t
  | Except.error e => "Error generating response: " ++ e

/-! ### Query rewrite heuristic (`RAGPipeline.rewrite_query_with_context`) -/

/-- Rule 3's informational starter phrases. -/
def informationalStarters : List String :=
  ["explain", "what is", "what are", "what was", "what does",
   "who", "when", "where", "why", "how", "which",
   "define", "describe", "list", "tell me about"]

/-- Rule 4's domain-specific legal terms. -/
def specificLegalTerms : List String :=
  ["article", "section", "act", "ipc", "crpc", "constitution",
   "amendment", "schedule", "panchayat", "fundamental rights",
   "directive principles", "udhr", "iccpr"]

/-- A word character of the regex `\w` (ASCII). -/
def isWordChar (c : Char) : Bool := c.isAlphanum || c == '_'

/-- Helper for `wordRuns`. -/
def wordRunsAux : List Char → List Char → List (List Char)
  | [], acc => if acc = [] then [] else [acc.reverse]
  | c :: rest, acc =>
    if isWordChar c then wordRunsAux rest (c :: acc)
    else if acc = [] then wordRunsAux rest [] else acc.reverse :: wordRunsAux rest []

/-- The maximal word-character runs of a character list. -/
def wordRuns (l : List Char) : List (List Char) := wordRunsAux l []

/-- `re.search(r'\b<w>\b', s)` for a word `w` made of word characters: `w`
occurs as a maximal word-character run of `s`. -/
def containsWord (s w : String) : Bool := (wordRuns s.data).contains w.data

/-- `\s+` at the head of the remainder: one mandatory whitespace character
then any further whitespace. -/
def afterWsPlus : List Char → Option (List Char)
  | [] => none
  | c :: rest =>
    if c.isWhitespace then some (rest.dropWhile Char.isWhitespace) else none

/-- `(examples?|details?)` matched at the head of the remainder (as a
`re.search`, the optional `s` and any tail are irrelevant). -/
def exampleOrDetail (l : List Char) : Bool :=
  "example".data.isPrefixOf l || "detail".data.isPrefixOf l

/-- The pattern `^(give|show|provide)\s+(me\s+)?(examples?|details?)`. -/
def matchGiveShow (l : List Char) : Bool :=
  ["give", "show", "provide"].any (fun v =>
    v.data.isPrefixOf l &&
      (match afterWsPlus (l.drop v.length) with
       | none => false
       | some r =>
         exampleOrDetail r ||
           ("me".data.isPrefixOf r &&
             (match afterWsPlus (r.drop 2) with
              | none => false
              | some r₂ => exampleOrDetail r₂))))

/-- Rule 5's strong follow-up indicators, checked on the lowercased query:
the standalone words that/this/those/it/them, a `more`/`another` prefix, or
the give/show/provide-examples pattern. -/
def hasFollowUp (q : String) : Bool :=
  containsWord q "that" || containsWord q "this" || containsWord q "those" ||
  containsWord q "it" || containsWord q "them" ||
  "more".data.isPrefixOf q.data || "another".data.isPrefixOf q.data ||
  matchGiveShow q.data

/-- Leading text of the rewrite instruction prompt. -/
def rewritePromptHeader : String :=
  "You are rewriting a follow-up legal question to be self-contained.\n\nPrevious conversation (last 2 turns):\n"

/-- Middle text of the rewrite instruction prompt. -/
def rewritePromptMid : String := "\n\nUser follow-up: "

/-- Trailing text of the rewrite instruction prompt (the four rewrite rules
and the answer cue of the source template). -/
def rewritePromptRules : String :=
  "\n\nRules:\n1. If the query references that, this, it, replace with the actual topic from conversation\n2. Preserve exact legal terminology (Article numbers, act names, constitutional terms)\n3. Keep it concise (max 20 words)\n4. If already clear, return unchanged\n\nRewritten question:"

/-- The rewrite instruction sent to the generator: it embeds the trailing 800
characters of the conversation context and the query. -/
def rewritePrompt (conversationContext query : String) : String :=
  rewritePromptHeader ++ takeRightStr conversationContext 800 ++ rewritePromptMid ++
    query ++ rewritePromptRules

/-- `RAGPipeline.rewrite_query_with_context(query, conversation_context)`:
the five ordered skip rules, then the generator call (whose failure returns
the original query), then the 2x word-count safety check. -/
def rewriteQuery (P : Pipeline) (query conversationContext : String) : String :=
  if conversationContext = "" then query
  else if 15 < pyWordCount query then query
  else if informationalStarters.any
      (fun st => st.data.isPrefixOf (pyStrip (pyLower query)).data) then query
  else if specificLegalTerms.any (fun t => strContains (pyLower query) t) then query
  else if ! hasFollowUp (pyLower query) then query
  else
    match P.completeRewrite (rewritePrompt conversationContext query) with
    | Except.error _ => query
    | Except.ok out =>
      let rewritten := pyStrip out
      if 2 * pyWordCount query < pyWordCount rewritten then query else rewritten

/-! ### The context budget scheduler loop (`RAGPipeline.chat`, lines 300-338) -/

/-- The loop-invariant inputs of the budget scheduler: the retrieval step as
a function of `k`, the (fixed) query token estimate, the available context
token budget, whether history is enabled (`include_history and
self.groq_client`), the summarization collaborator indexed by loop
iteration, and `self.min_k`. -/
structure Sched where
  retrieve : Nat → String
  queryTokens : Nat
  availableContextTokens : Nat
  includeHistory : Bool
  summarize : Nat → Option String
  minK : Nat

/-- The state of the scheduler on loop exit: the retrieved context, the
(possibly summarized or truncated) conversation context, the final `k`,
whether exit happened through the terminal hard-truncation branch, and the
number of loop iterations executed. -/
structure LoopResult where
  retrieved : String
  conversationContext : String
  usedK : Nat
  truncatedExit : Bool
  steps : Nat
  deriving DecidableEq

/-- The summarization attempt of one loop iteration (`ensure_summary_limit`
followed by the context re-read, inside `try`/`except`): when history is
enabled and the attempt succeeds the refreshed context replaces the old one,
otherwise (`except Exception: pass`) the context is unchanged. -/
def summaryStep (S : Sched) (conv : String) (iter : Nat) : String :=
  if S.includeHistory then (S.summarize iter).getD conv else conv

/-- The terminal hard-truncation branch of the loop, reached at `k = minK`:
compute the token allowance left for retrieved text; if none is left,
truncate the conversation context to the trailing half of the available
budget in characters (4 chars per token) and recompute; finally truncate the
retrieved text to the character allowance. -/
def truncateTail (S : Sched) (retrieved conv₂ : String) (k : Nat) : LoopResult :=
  let allowed : Int :=
    max 0 ((S.availableContextTokens : Int) - (estimateTokens conv₂ : Int) -
      (S.queryTokens : Int))
  let conv₃ :=
    if allowed ≤ 0 then
      (let keep := max 0 ((S.availableContextTokens / 2) * 4)
       if 0 < keep then takeRightStr conv₂ keep else "")
    else conv₂
  let allowed₂ : Int :=
    if allowed ≤ 0 then
      max 0 ((S.availableContextTokens : Int) - (estimateTokens conv₃ : Int) -
        (S.queryTokens : Int))
    else allowed
  let charLimit := (allowed₂ * 4).toNat
  let retrieved₂ :=
    if charLimit < retrieved.length then takeStr retrieved charLimit else retrieved
  ⟨retrieved₂, conv₃, k, true, 1⟩

/-- The `while True` budget loop of `RAGPipeline.chat`, with an explicit
iteration bound (`none` when the bound is exhausted before the loop exits;
the termination theorem shows a bound that always suffices).  Each
iteration: retrieve at the current `k`; exit if the recomputed estimate
fits; else attempt summarization (`summaryStep`) and exit if the refreshed
estimate fits; else decrement `k` towards `minK`; at `k = minK`, hard
truncate (`truncateTail`) and exit. -/
def budgetLoop (S : Sched) : Nat → Nat → String → Nat → Option LoopResult
  | 0, _, _, _ => none
  | fuel + 1, k, conv, iter =>
    let retrieved := S.retrieve k
    let total := estimateTokens conv + estimateTokens retrieved + S.queryTokens
    if total ≤ S.availableContextTokens then
      some ⟨retrieved, conv, k, false, 1⟩
    else
      let conv₂ := summaryStep S conv iter
      let total₂ := estimateTokens conv₂ + estimateTokens retrieved + S.queryTokens
      if S.includeHistory = true ∧ (S.summarize iter).isSome = true ∧
          total₂ ≤ S.availableContextTokens then
        some ⟨retrieved, conv₂, k, false, 1⟩
      else if S.minK < k then
        (budgetLoop S fuel (max S.minK (k - 1)) conv₂ (iter + 1)).map
          (fun r => ⟨r.retrieved, r.conversationContext, r.usedK, r.truncatedExit, r.steps + 1⟩)
      else
        some (truncateTail S retrieved conv₂ k)

/-! ### The chat turn (`RAGPipeline.chat`) -/

/-- The turn output visible to the caller that the claims speak about: the
response text, the used `k`, the greeting-shortcut debug note, and whether
the query was rewritten.  Persistence and evaluation are external,
best-effort side effects and do not alter these fields. -/
structure ChatOut where
  response : String
  usedK : Nat
  note : Option String
  queryRewritten : Bool
  deriving DecidableEq

/-- `RAGPipeline.chat(session_id, query, include_history)`: the greeting
shortcut (retrieval skipped) when the query is a greeting and not
informational; otherwise conversation fetch, optional rewrite, the budget
scheduler loop (run with the iteration bound the termination theorem
justifies), and response generation. -/
def chat (P : Pipeline) (sessionId query : String) (includeHistory : Bool) : ChatOut :=
  if isGreeting query && ! isInformational query then
    { response := generateResponse P query "" "",
      usedK := 0, note := some "retrieval_skipped_greeting", queryRewritten := false }
  else
    let desiredK := P.retrieveK
    let conversationContext := if includeHistory then P.getContext sessionId else ""
    let query₂ :=
      if includeHistory = true ∧ conversationContext ≠ "" then
        rewriteQuery P query conversationContext
      else query
    let availableContextTokens :=
      (max 256 ((P.modelMaxTokens : Int) - (P.reservedResponseTokens : Int))).toNat
    let queryTokens := estimateTokens query₂
    let S : Sched :=
      ⟨fun k => retrieveContext P query₂ k, queryTokens, availableContextTokens,
        includeHistory, P.summarize sessionId, P.minK⟩
    let r := (budgetLoop S (desiredK - P.minK + 3) desiredK conversationContext 0).getD
      ⟨"", conversationContext, P.minK, true, 0⟩
    { response := generateResponse P query₂ r.retrieved r.conversationContext,
      usedK := r.usedK, note := none, queryRewritten := query₂ != query }

/-! ### Permutation and sortedness of the stable descending sort -/

lemma insertDesc_perm (p : Nat × ℚ) (l : List (Nat × ℚ)) :
    (insertDesc p l).Perm (p :: l) := by
  induction l with
  | nil => simp [insertDesc]
  | cons q rest ih =>
    simp only [insertDesc]
    split
    · exact (ih.cons q).trans (List.Perm.swap p q rest)
    · exact List.Perm.refl _

lemma sortDesc_perm (l : List (Nat × ℚ)) : (sortDesc l).Perm l := by
  induction l with
  | nil => simp [sortDesc]
  | cons p rest ih => exact (insertDesc_perm p (sortDesc rest)).trans (ih.cons p)

lemma insertDesc_pairwise (p : Nat × ℚ) (l : List (Nat × ℚ))
    (h : l.Pairwise (fun a b => b.2 ≤ a.2)) :
    (insertDesc p l).Pairwise (fun a b => b.2 ≤ a.2) := by
  induction l with
  | nil => simp [insertDesc]
  | cons q rest ih =>
    rw [List.pairwise_cons] at h
    simp only [insertDesc]
    split
    · rename_i hlt
      rw [List.pairwise_cons]
      refine ⟨fun x hx => ?_, ih h.2⟩
      rcases List.mem_cons.1 ((insertDesc_perm p rest).mem_iff.1 hx) with rfl | hx
      · exact le_of_lt hlt
      · exact h.1 x hx
    · rename_i hge
      rw [List.pairwise_cons]
      refine ⟨fun x hx => ?_, List.pairwise_cons.2 h⟩
      rcases List.mem_cons.1 hx with rfl | hx
      · exact not_lt.1 hge
      · exact le_trans (h.1 x hx) (not_lt.1 hge)

lemma sortDesc_pairwise (l : List (Nat × ℚ)) :
    (sortDesc l).Pairwise (fun a b => b.2 ≤ a.2) := by
  induction l with
  | nil => simp [sortDesc]
  | cons p rest ih => exact insertDesc_pairwise p (sortDesc rest) ih

/-! ### The RRF dict fold computes pointwise contribution sums -/

lemma lookup0_nil (i : Nat) : lookup0 [] i = 0 := rfl

lemma lookup0_cons (p : Nat × ℚ) (m : List (Nat × ℚ)) (i : Nat) :
    lookup0 (p :: m) i = if p.1 = i then p.2 else lookup0 m i := by
  by_cases h : p.1 = i <;> simp [lookup0, List.find?_cons, h]

lemma lookup0_bump (m : List (Nat × ℚ)) (i : Nat) (v : ℚ) (j : Nat) :
    lookup0 (bump m i v) j = lookup0 m j + if i = j then v else 0 := by
  induction m with
  | nil =>
    simp only [bump, lookup0_cons, lookup0_nil]
    by_cases h : i = j <;> simp [h]
  | cons p rest ih =>
    obtain ⟨a, b⟩ := p
    simp only [bump]
    by_cases hai : a = i
    · rw [if_pos hai, lookup0_cons, lookup0_cons]
      simp only
      by_cases haj : a = j
      · rw [if_pos haj, if_pos haj, if_pos (hai.symm.trans haj)]
      · rw [if_neg haj, if_neg haj, if_neg (fun hij => haj (hai.trans hij)), add_zero]
    · rw [if_neg hai, lookup0_cons, lookup0_cons]
      simp only
      by_cases haj : a = j
      · rw [if_pos haj, if_pos haj, if_neg (fun hij => hai (haj.trans hij.symm)), add_zero]
      · rw [if_neg haj, if_neg haj, ih]

lemma mem_keys_bump (m : List (Nat × ℚ)) (i : Nat) (v : ℚ) (j : Nat) :
    j ∈ (bump m i v).map Prod.fst ↔ j ∈ m.map Prod.fst ∨ j = i := by
  induction m with
  | nil => simp [bump]
  | cons p rest ih =>
    obtain ⟨a, b⟩ := p
    simp only [bump]
    by_cases hai : a = i
    · subst hai
      rw [if_pos rfl]
      simp only [List.map_cons, List.mem_cons]
      tauto
    · rw [if_neg hai]
      simp only [List.map_cons, List.mem_cons, ih]
      tauto

lemma bump_keys_nodup (m : List (Nat × ℚ)) (i : Nat) (v : ℚ)
    (h : (m.map Prod.fst).Nodup) : ((bump m i v).map Prod.fst).Nodup := by
  induction m with
  | nil => simp [bump]
  | cons p rest ih =>
    obtain ⟨a, b⟩ := p
    simp only [List.map_cons, List.nodup_cons] at h
    simp only [bump]
    by_cases hai : a = i
    · rw [if_pos hai]
      simp only [List.map_cons, List.nodup_cons]
      exact h
    · rw [if_neg hai]
      simp only [List.map_cons, List.nodup_cons]
      refine ⟨fun hc => ?_, ih h.2⟩
      rcases (mem_keys_bump rest i v a).1 hc with hc | hc
      · exact h.1 hc
      · exact hai hc

lemma lookup0_addRanks (w : ℚ) (l : List Nat) (r : Nat) (m : List (Nat × ℚ)) (j : Nat) :
    lookup0 (addRanks w l r m) j = lookup0 m j + sumContrib w l r j := by
  induction l generalizing r m with
  | nil => simp [addRanks, sumContrib]
  | cons i rest ih =>
    simp only [addRanks, sumContrib]
    rw [ih, lookup0_bump]
    ring

lemma addRanks_keys_nodup (w : ℚ) (l : List Nat) (r : Nat) (m : List (Nat × ℚ))
    (h : (m.map Prod.fst).Nodup) : ((addRanks w l r m).map Prod.fst).Nodup := by
  induction l generalizing r m with
  | nil => simpa [addRanks] using h
  | cons i rest ih => exact ih _ _ (bump_keys_nodup m i _ h)

lemma rrfMap_keys_nodup (b v : List Nat) (alpha : ℚ) :
    ((rrfMap b v alpha).map Prod.fst).Nodup := by
  unfold rrfMap
  exact addRanks_keys_nodup _ _ _ _ (addRanks_keys_nodup _ _ _ _ (by simp))

lemma lookup0_rrfMap (b v : List Nat) (alpha : ℚ) (j : Nat) :
    lookup0 (rrfMap b v alpha) j = sumContrib 1 b 0 j + sumContrib alpha v 0 j := by
  unfold rrfMap
  rw [lookup0_addRanks, lookup0_addRanks, lookup0_nil, zero_add]

lemma mem_lookup0 (m : List (Nat × ℚ)) (j : Nat) (x : ℚ)
    (h : (m.map Prod.fst).Nodup) (hm : (j, x) ∈ m) : lookup0 m j = x := by
  induction m with
  | nil => cases hm
  | cons p rest ih =>
    simp only [List.map_cons, List.nodup_cons] at h
    rcases List.mem_cons.1 hm with heq | hm
    · rw [← heq, lookup0_cons, if_pos rfl]
    · have hpj : ¬ p.1 = j := by
        intro hc
        exact h.1 (hc ▸ (List.mem_map.2 ⟨(j, x), hm, rfl⟩))
      rw [lookup0_cons, if_neg hpj]
      exact ih h.2 hm

lemma lookup0_mem (m : List (Nat × ℚ)) (j : Nat) (h : lookup0 m j ≠ 0) :
    (j, lookup0 m j) ∈ m := by
  unfold lookup0 at *
  cases hf : m.find? (fun p => p.1 == j) with
  | none => simp [hf] at h
  | some p =>
    have hp : p ∈ m := List.mem_of_find?_eq_some hf
    have hpj : p.1 = j := by simpa using List.find?_some hf
    simp only [hf]
    have hjp : (j, p.2) = p := by rw [← hpj]
    rwa [hjp]

/-! ### Contribution sums collapse to the specification formula on duplicate-free lists -/

lemma rankOf_head (j : Nat) (l : List Nat) : rankOf j (j :: l) = some 0 := by
  simp [rankOf]

lemma rankOf_cons_ne {i j : Nat} (l : List Nat) (h : ¬ i = j) :
    rankOf j (i :: l) = (rankOf j l).map (· + 1) := by
  simp [rankOf, h]

lemma sumContrib_eq_zero (w : ℚ) (l : List Nat) (r j : Nat) (h : j ∉ l) :
    sumContrib w l r j = 0 := by
  induction l generalizing r with
  | nil => rfl
  | cons i rest ih =>
    simp only [List.mem_cons, not_or] at h
    simp only [sumContrib]
    rw [if_neg (fun hc => h.1 hc.symm), zero_add, ih _ h.2]

lemma sumContrib_nodup (w : ℚ) (l : List Nat) (r j : Nat) (h : l.Nodup) :
    sumContrib w l r j =
      match rankOf j l with
      | some t => w / (60 + ((r + t : Nat) : ℚ) + 1)
      | none => 0 := by
  induction l generalizing r with
  | nil => rfl
  | cons i rest ih =>
    simp only [List.nodup_cons] at h
    by_cases hij : i = j
    · subst hij
      rw [rankOf_head]
      simp only [sumContrib, if_pos rfl]
      rw [sumContrib_eq_zero w rest (r + 1) i h.1, add_zero]
      norm_num
    · rw [rankOf_cons_ne rest hij]
      simp only [sumContrib, if_neg hij, zero_add]
      rw [ih _ h.2]
      cases hr : rankOf j rest with
      | none => simp
      | some t =>
        simp only [Option.map_some']
        have harith : r + 1 + t = r + (t + 1) := by omega
        rw [harith]

lemma sumContrib_eq_rrfContrib (w : ℚ) (l : List Nat) (j : Nat) (h : l.Nodup) :
    sumContrib w l 0 j = rrfContrib w l j := by
  rw [sumContrib_nodup w l 0 j h]
  unfold rrfContrib
  cases rankOf j l <;> simp

/-! ### Bounds on the specification-side contribution -/

lemma rrfContrib_nonneg (w : ℚ) (l : List Nat) (j : Nat) (hw : 0 ≤ w) :
    0 ≤ rrfContrib w l j := by
  unfold rrfContrib
  cases h : rankOf j l with
  | none => exact le_refl 0
  | some r =>
    apply div_nonneg hw
    have : (0 : ℚ) ≤ (r : ℚ) := Nat.cast_nonneg r
    linarith

lemma rrfContrib_le (w : ℚ) (l : List Nat) (j : Nat) (hw : 0 ≤ w) :
    rrfContrib w l j ≤ w / 61 := by
  unfold rrfContrib
  cases h : rankOf j l with
  | none => positivity
  | some r =>
    apply div_le_div_of_nonneg_left hw (by norm_num)
    have : (0 : ℚ) ≤ (r : ℚ) := Nat.cast_nonneg r
    linarith

lemma rrfContrib_head (w : ℚ) (l : List Nat) (j : Nat) (h : l.head? = some j) :
    rrfContrib w l j = w / 61 := by
  cases l with
  | nil => cases h
  | cons i rest =>
    have hij : i = j := by simpa using h
    subst hij
    unfold rrfContrib
    rw [rankOf_head]
    norm_num

lemma rrfContrib_le_62 (w : ℚ) (l : List Nat) (j : Nat) (hw : 0 ≤ w)
    (h : l.head? ≠ some j) : rrfContrib w l j ≤ w / 62 := by
  cases l with
  | nil =>
    unfold rrfContrib rankOf
    positivity
  | cons i rest =>
    have hij : ¬ i = j := fun hc => h (by simp [hc])
    unfold rrfContrib
    rw [rankOf_cons_ne rest hij]
    cases hr : rankOf j rest with
    | none => positivity
    | some t =>
      simp only [Option.map_some']
      apply div_le_div_of_nonneg_left hw (by norm_num)
      have : (0 : ℚ) ≤ (t : ℚ) := Nat.cast_nonneg t
      push_cast
      linarith

/-! ### The descending argsort is a permutation of the index range -/

lemma argsortDesc_perm (xs : List ℚ) : (argsortDesc xs).Perm (List.range xs.length) := by
  unfold argsortDesc
  have h := (sortDesc_perm ((List.range xs.length).map (fun i => (i, xs.getD i 0)))).map Prod.fst
  rw [List.map_map] at h
  have h₂ : (List.range xs.length).map (Prod.fst ∘ fun i => (i, xs.getD i 0)) =
      List.range xs.length := by
    simp [Function.comp_def]
  rwa [h₂] at h

lemma argsortDesc_nodup (xs : List ℚ) : (argsortDesc xs).Nodup :=
  (argsortDesc_perm xs).symm.nodup (List.nodup_range _)

lemma mem_argsortDesc (xs : List ℚ) (i : Nat) (h : i ∈ argsortDesc xs) : i < xs.length :=
  List.mem_range.1 ((argsortDesc_perm xs).mem_iff.1 h)

lemma head?_take {α : Type _} (l : List α) (a : α) (n : Nat) (hn : 1 ≤ n)
    (h : l.head? = some a) : (l.take n).head? = some a := by
  cases l with
  | nil => cases h
  | cons x rest =>
    cases n with
    | zero => omega
    | succ m => simpa using h

/-! ### The fusion output: length, order, membership -/

lemma fusionResults_length (documents : List String) (pool : List (Nat × ℚ)) (k : Nat) :
    (fusionResults documents pool k).length ≤ k := by
  unfold fusionResults
  refine le_trans (List.length_filterMap_le _ _) ?_
  rw [List.length_take]
  exact min_le_left _ _

lemma fusionEntry_snd {documents : List String} {p : Nat × ℚ} {b : String × ℚ}
    (hb : b ∈ if h : p.1 < documents.length then some (documents.get ⟨p.1, h⟩, p.2) else none) :
    b.2 = p.2 := by
  by_cases h : p.1 < documents.length
  · rw [dif_pos h] at hb
    have hbe : (documents.get ⟨p.1, h⟩, p.2) = b := Option.some_inj.1 (Option.mem_def.1 hb)
    rw [← hbe]
  · rw [dif_neg h] at hb
    exact absurd hb (by simp)

lemma fusionResults_pairwise (documents : List String) (pool : List (Nat × ℚ)) (k : Nat) :
    (fusionResults documents pool k).Pairwise (fun a b => b.2 ≤ a.2) := by
  unfold fusionResults
  rw [List.pairwise_filterMap]
  have hbase : ((sortDesc pool).take k).Pairwise (fun a b => b.2 ≤ a.2) :=
    List.Pairwise.sublist (List.take_sublist k (sortDesc pool)) (sortDesc_pairwise pool)
  refine hbase.imp ?_
  intro p q hle b hb b' hb'
  rw [fusionEntry_snd hb, fusionEntry_snd hb']
  exact hle

lemma mem_fusionResults (documents : List String) (pool : List (Nat × ℚ)) (k : Nat)
    (b : String × ℚ) (hb : b ∈ fusionResults documents pool k) :
    ∃ p ∈ pool, ∃ h : p.1 < documents.length, b = (documents.get ⟨p.1, h⟩, p.2) := by
  obtain ⟨a, ha, hfa⟩ := List.mem_filterMap.1 hb
  have ha₂ : a ∈ pool :=
    (sortDesc_perm pool).mem_iff.1 ((List.take_sublist k (sortDesc pool)).mem ha)
  by_cases h : a.1 < documents.length
  · rw [dif_pos h] at hfa
    exact ⟨a, ha₂, h, (Option.some_inj.1 hfa).symm⟩
  · rw [dif_neg h] at hfa
    cases hfa

/-- Claim C2: for every query with at least one scorable token, the fusion
search returns (passage text, fused score) pairs whose fused score for corpus
index `i` is the sum, over each source (lexical weight 1, vector weight
`alpha`) in whose truncated top-`3k` list `i` appears, of
`weight / (60 + rank + 1)` with `rank` the 0-based position in that source's
list; the output is sorted by fused score descending, has length at most `k`,
and every returned passage is an element of the corpus.  The truncated vector
ranking is assumed duplicate-free, which the claim's formula presupposes (its
per-source rank is otherwise ill-defined; duplicates arise only when the
vector collaborator returns two hits mapping to one corpus index). -/
theorem C2_fusion_rrf_scores
    (documents : List String) (bm25Get : List String → List ℚ)
    (vsearch : Nat → List (String × ℚ)) (query : String) (k : Nat) (alpha : ℚ)
    (hq : tokenize query ≠ [])
    (hv : ((vectorRanked documents (vsearch documents.length)).take (k * 3)).Nodup) :
    (hybridSearch documents bm25Get vsearch query k alpha).length ≤ k ∧
    (hybridSearch documents bm25Get vsearch query k alpha).Pairwise (fun a b => b.2 ≤ a.2) ∧
    ∀ p ∈ hybridSearch documents bm25Get vsearch query k alpha,
      p.1 ∈ documents ∧
      ∃ i, i < documents.length ∧ documents.getD i "" = p.1 ∧
        p.2 = rrfContrib 1 ((argsortDesc (bm25Get (tokenize query))).take (k * 3)) i +
          rrfContrib alpha ((vectorRanked documents (vsearch documents.length)).take (k * 3)) i := by
  have hout : hybridSearch documents bm25Get vsearch query k alpha =
      fusionResults documents
        (rrfPool documents (bm25Get (tokenize query)) (vsearch documents.length) k alpha) k := by
    unfold hybridSearch
    rw [if_neg]
    simpa using hq
  rw [hout]
  refine ⟨fusionResults_length _ _ _, fusionResults_pairwise _ _ _, ?_⟩
  intro p hp
  obtain ⟨q₀, hq₀, hlt, rfl⟩ := mem_fusionResults _ _ _ _ hp
  refine ⟨List.get_mem documents q₀.1 hlt, q₀.1, hlt, List.getD_eq_get documents "" hlt, ?_⟩
  have hnB : ((argsortDesc (bm25Get (tokenize query))).take (k * 3)).Nodup :=
    List.Nodup.sublist (List.take_sublist _ _) (argsortDesc_nodup _)
  have hkeys : (((rrfPool documents (bm25Get (tokenize query)) (vsearch documents.length) k
      alpha)).map Prod.fst).Nodup := by
    unfold rrfPool
    exact rrfMap_keys_nodup _ _ _
  have hlk := mem_lookup0 _ q₀.1 q₀.2 hkeys (by simpa using hq₀)
  show q₀.2 = _
  rw [← hlk]
  unfold rrfPool
  rw [lookup0_rrfMap, sumContrib_eq_rrfContrib _ _ _ hnB, sumContrib_eq_rrfContrib _ _ _ hv]

/-- Witness for C2: a two-passage corpus, query "aa bb", `k = 1`,
`alpha = 1`. -/
theorem C2_fusion_rrf_scores_witness :
    tokenize "aa bb" ≠ [] ∧
    ((vectorRanked ["aa", "bb"] [("aa", (1 : ℚ)), ("bb", 0)]).take (1 * 3)).Nodup ∧
    (hybridSearch ["aa", "bb"] (fun _ => [(1 : ℚ), 0])
      (fun _ => [("aa", (1 : ℚ)), ("bb", 0)]) "aa bb" 1 1).length ≤ 1 :=
  ⟨by decide, by decide,
    (C2_fusion_rrf_scores ["aa", "bb"] (fun _ => [(1 : ℚ), 0])
      (fun _ => [("aa", (1 : ℚ)), ("bb", 0)]) "aa bb" 1 1 (by decide) (by decide)).1⟩

/-- Claim C3: for every query whose tokenization is empty, the fusion search
delegates to vector-only search for top-`k` and returns its result unchanged
(same passages, same order, same scores, no fusion). -/
theorem C3_empty_tokens_vector_only
    (documents : List String) (bm25Get : List String → List ℚ)
    (vsearch : Nat → List (String × ℚ)) (query : String) (k : Nat) (alpha : ℚ)
    (h : tokenize query = []) :
    hybridSearch documents bm25Get vsearch query k alpha = vsearch k := by
  have hemp : (tokenize query).isEmpty = true := by rw [h]; rfl
  unfold hybridSearch
  rw [if_pos hemp]

/-- Witness for C3: the single-character query "a" has no scorable token. -/
theorem C3_empty_tokens_vector_only_witness :
    tokenize "a" = [] ∧
    hybridSearch ["doc"] (fun _ => []) (fun _ => [("doc", (1 : ℚ))]) "a" 2 (1 / 2) =
      [("doc", (1 : ℚ))] :=
  ⟨by decide,
    C3_empty_tokens_vector_only ["doc"] (fun _ => []) (fun _ => [("doc", (1 : ℚ))])
      "a" 2 (1 / 2) (by decide)⟩

lemma mem_of_head? {α : Type _} {l : List α} {a : α} (h : l.head? = some a) : a ∈ l := by
  cases l with
  | nil => cases h
  | cons x t =>
    have hx : x = a := by simpa using h
    exact hx ▸ List.mem_cons_self x t

/-- A pool entry whose score strictly dominates every other key's score is
the head of the descending sort. -/
lemma sortDesc_head_of_strict_max (pool : List (Nat × ℚ)) (i : Nat) (s : ℚ)
    (hmem : (i, s) ∈ pool)
    (hmax : ∀ q ∈ pool, q.1 ≠ i → q.2 < s)
    (hkeys : (pool.map Prod.fst).Nodup) :
    (sortDesc pool).head? = some (i, s) := by
  have hne : sortDesc pool ≠ [] := by
    intro hc
    have hmem₂ : (i, s) ∈ sortDesc pool := (sortDesc_perm pool).mem_iff.2 hmem
    rw [hc] at hmem₂
    cases hmem₂
  obtain ⟨hd, tl, hcons⟩ := List.exists_cons_of_ne_nil hne
  have hhd_mem : hd ∈ pool := by
    refine (sortDesc_perm pool).mem_iff.1 ?_
    rw [hcons]
    exact List.mem_cons_self hd tl
  have hpair := sortDesc_pairwise pool
  rw [hcons, List.pairwise_cons] at hpair
  have hs_le : s ≤ hd.2 := by
    have hmem₃ : (i, s) ∈ hd :: tl := hcons ▸ ((sortDesc_perm pool).mem_iff.2 hmem)
    rcases List.mem_cons.1 hmem₃ with heq | htl
    · rw [← heq]
    · exact hpair.1 _ htl
  have hhd1 : hd.1 = i := by
    by_contra hne1
    exact absurd (hmax hd hhd_mem hne1) (not_lt.2 hs_le)
  have hhd2 : hd.2 = s := by
    have h1 : lookup0 pool hd.1 = hd.2 := mem_lookup0 _ _ _ hkeys (by simpa using hhd_mem)
    have h2 : lookup0 pool i = s := mem_lookup0 _ _ _ hkeys hmem
    rw [hhd1] at h1
    rw [← h1, h2]
  have hhd : hd = (i, s) := by rw [← hhd1, ← hhd2]
  rw [hcons, hhd]
  rfl

/-- Claim C5: if a passage has rank 0 in both the lexical and the vector
ranking, it occupies the first position of the fused output, for any
`alpha > 0` (rank dominance).  As in C2, the truncated vector ranking is
assumed duplicate-free, and the BM25 collaborator is assumed to return one
score per corpus passage (`hlen`), which is how `BM25Okapi.get_scores`
behaves on the corpus the retriever was built from. -/
theorem C5_rank_dominance
    (documents : List String) (bm25Get : List String → List ℚ)
    (vsearch : Nat → List (String × ℚ)) (query : String) (k : Nat) (alpha : ℚ) (i : Nat)
    (hq : tokenize query ≠ []) (ha : 0 < alpha) (hk : 1 ≤ k)
    (hlen : (bm25Get (tokenize query)).length = documents.length)
    (hv : ((vectorRanked documents (vsearch documents.length)).take (k * 3)).Nodup)
    (hb : (argsortDesc (bm25Get (tokenize query))).head? = some i)
    (hvec : (vectorRanked documents (vsearch documents.length)).head? = some i) :
    ∃ p, (hybridSearch documents bm25Get vsearch query k alpha).head? = some p ∧
      p.1 = documents.getD i "" := by
  have hk3 : 1 ≤ k * 3 := by omega
  have hB : ((argsortDesc (bm25Get (tokenize query))).take (k * 3)).head? = some i :=
    head?_take _ _ _ hk3 hb
  have hV : ((vectorRanked documents (vsearch documents.length)).take (k * 3)).head? = some i :=
    head?_take _ _ _ hk3 hvec
  have hnB : ((argsortDesc (bm25Get (tokenize query))).take (k * 3)).Nodup :=
    List.Nodup.sublist (List.take_sublist _ _) (argsortDesc_nodup _)
  have hi : i < documents.length := by
    rw [← hlen]
    exact mem_argsortDesc _ _ (mem_of_head? hb)
  have hkeys : (((rrfPool documents (bm25Get (tokenize query)) (vsearch documents.length) k
      alpha)).map Prod.fst).Nodup := by
    unfold rrfPool
    exact rrfMap_keys_nodup _ _ _
  have hlook : ∀ j, lookup0 (rrfPool documents (bm25Get (tokenize query))
      (vsearch documents.length) k alpha) j =
      rrfContrib 1 ((argsortDesc (bm25Get (tokenize query))).take (k * 3)) j +
      rrfContrib alpha ((vectorRanked documents (vsearch documents.length)).take (k * 3)) j := by
    intro j
    unfold rrfPool
    rw [lookup0_rrfMap, sumContrib_eq_rrfContrib _ _ _ hnB, sumContrib_eq_rrfContrib _ _ _ hv]
  have hsmax : lookup0 (rrfPool documents (bm25Get (tokenize query))
      (vsearch documents.length) k alpha) i = 1 / 61 + alpha / 61 := by
    rw [hlook i, rrfContrib_head 1 _ i hB, rrfContrib_head alpha _ i hV]
  have hpos : (0 : ℚ) < 1 / 61 + alpha / 61 := by positivity
  have hmem : (i, (1 : ℚ) / 61 + alpha / 61) ∈ rrfPool documents (bm25Get (tokenize query))
      (vsearch documents.length) k alpha := by
    have := lookup0_mem (rrfPool documents (bm25Get (tokenize query))
      (vsearch documents.length) k alpha) i (by rw [hsmax]; exact hpos.ne')
    rwa [hsmax] at this
  have hmax : ∀ q ∈ rrfPool documents (bm25Get (tokenize query))
      (vsearch documents.length) k alpha, q.1 ≠ i → q.2 < 1 / 61 + alpha / 61 := by
    intro q hq₀ hne
    have hq2 : lookup0 (rrfPool documents (bm25Get (tokenize query))
        (vsearch documents.length) k alpha) q.1 = q.2 :=
      mem_lookup0 _ _ _ hkeys (by simpa using hq₀)
    have hbne : ((argsortDesc (bm25Get (tokenize query))).take (k * 3)).head? ≠ some q.1 := by
      rw [hB]
      exact fun hc => hne (Option.some_inj.1 hc).symm
    have hvne : ((vectorRanked documents (vsearch documents.length)).take (k * 3)).head? ≠
        some q.1 := by
      rw [hV]
      exact fun hc => hne (Option.some_inj.1 hc).symm
    have h₁ := rrfContrib_le_62 1 ((argsortDesc (bm25Get (tokenize query))).take (k * 3)) q.1
      (by norm_num) hbne
    have h₂ := rrfContrib_le_62 alpha
      ((vectorRanked documents (vsearch documents.length)).take (k * 3)) q.1 (le_of_lt ha) hvne
    have hq2' := hlook q.1
    rw [hq2] at hq2'
    have halt : alpha / 62 < alpha / 61 := div_lt_div_of_pos_left ha (by norm_num) (by norm_num)
    have h161 : (1 : ℚ) / 62 < 1 / 61 := by norm_num
    linarith
  have hhead := sortDesc_head_of_strict_max _ i ((1 : ℚ) / 61 + alpha / 61) hmem hmax hkeys
  have htake : ((sortDesc (rrfPool documents (bm25Get (tokenize query))
      (vsearch documents.length) k alpha)).take k).head? = some (i, (1 : ℚ) / 61 + alpha / 61) :=
    head?_take _ _ _ hk hhead
  obtain ⟨tl', hcons⟩ : ∃ tl', (sortDesc (rrfPool documents (bm25Get (tokenize query))
      (vsearch documents.length) k alpha)).take k = (i, (1 : ℚ) / 61 + alpha / 61) :: tl' := by
    cases hc : (sortDesc (rrfPool documents (bm25Get (tokenize query))
        (vsearch documents.length) k alpha)).take k with
    | nil => rw [hc] at htake; cases htake
    | cons x t =>
      rw [hc] at htake
      have hx : x = (i, (1 : ℚ) / 61 + alpha / 61) := by simpa using htake
      exact ⟨t, by rw [hx]⟩
  have hout : hybridSearch documents bm25Get vsearch query k alpha =
      fusionResults documents
        (rrfPool documents (bm25Get (tokenize query)) (vsearch documents.length) k alpha) k := by
    unfold hybridSearch
    rw [if_neg]
    simpa using hq
  refine ⟨(documents.get ⟨i, hi⟩, (1 : ℚ) / 61 + alpha / 61), ?_, ?_⟩
  · rw [hout]
    unfold fusionResults
    rw [hcons, List.filterMap_cons]
    simp only [dif_pos hi]
    rfl
  · exact (List.getD_eq_get documents "" hi).symm

/-- Witness for C5: in a two-passage corpus with query "aa bb", passage 0 is
rank 0 in both rankings and heads the fused output. -/
theorem C5_rank_dominance_witness :
    (argsortDesc [(1 : ℚ), 0]).head? = some 0 ∧
    (vectorRanked ["aa", "bb"] [("aa", (1 : ℚ)), ("bb", 0)]).head? = some 0 ∧
    ∃ p, (hybridSearch ["aa", "bb"] (fun _ => [(1 : ℚ), 0])
        (fun _ => [("aa", (1 : ℚ)), ("bb", 0)]) "aa bb" 1 1).head? = some p ∧
      p.1 = (["aa", "bb"] : List String).getD 0 "" :=
  ⟨by decide, by decide,
    C5_rank_dominance ["aa", "bb"] (fun _ => [(1 : ℚ), 0])
      (fun _ => [("aa", (1 : ℚ)), ("bb", 0)]) "aa bb" 1 1 0
      (by decide) (by decide) (by decide) (by decide) (by decide) (by decide) (by decide)⟩

/-- Claim C10: for every query with scorable tokens and `alpha >= 0`, every
fused score is at most `(1 + alpha) / 61`; hence for the values actually used
(`alpha <= 1`, e.g. the pipeline's `0.9`) every fused score is strictly below
the `0.2` threshold, so the score filter of `retrieve_context` admits no
hybrid result and the raw top-`k` fallback determines the retrieved context
whenever the hybrid result list is non-empty.  As in C2, the truncated
vector ranking is assumed duplicate-free. -/
theorem C10_fused_scores_below_threshold
    (documents : List String) (bm25Get : List String → List ℚ)
    (vsearch : Nat → List (String × ℚ)) (query : String) (k : Nat) (alpha : ℚ)
    (hq : tokenize query ≠ []) (ha : 0 ≤ alpha)
    (hv : ((vectorRanked documents (vsearch documents.length)).take (k * 3)).Nodup) :
    (∀ p ∈ hybridSearch documents bm25Get vsearch query k alpha,
      p.2 ≤ (1 + alpha) / 61) ∧
    (alpha ≤ 1 →
      (∀ p ∈ hybridSearch documents bm25Get vsearch query k alpha, p.2 < (0.2 : ℚ)) ∧
      (hybridSearch documents bm25Get vsearch query k alpha ≠ [] →
        retrieveContextFrom (hybridSearch documents bm25Get vsearch query k alpha) k =
          joinBlank (((hybridSearch documents bm25Get vsearch query k alpha).take k).map
            Prod.fst))) := by
  have hout : hybridSearch documents bm25Get vsearch query k alpha =
      fusionResults documents
        (rrfPool documents (bm25Get (tokenize query)) (vsearch documents.length) k alpha) k := by
    unfold hybridSearch
    rw [if_neg]
    simpa using hq
  have hnB : ((argsortDesc (bm25Get (tokenize query))).take (k * 3)).Nodup :=
    List.Nodup.sublist (List.take_sublist _ _) (argsortDesc_nodup _)
  have hkeys : (((rrfPool documents (bm25Get (tokenize query)) (vsearch documents.length) k
      alpha)).map Prod.fst).Nodup := by
    unfold rrfPool
    exact rrfMap_keys_nodup _ _ _
  have hbound : ∀ p ∈ hybridSearch documents bm25Get vsearch query k alpha,
      p.2 ≤ (1 + alpha) / 61 := by
    intro p hp
    rw [hout] at hp
    obtain ⟨q₀, hq₀, hlt, rfl⟩ := mem_fusionResults _ _ _ _ hp
    have hq2 : lookup0 (rrfPool documents (bm25Get (tokenize query))
        (vsearch documents.length) k alpha) q₀.1 = q₀.2 :=
      mem_lookup0 _ _ _ hkeys (by simpa using hq₀)
    have hq2' : q₀.2 =
        rrfContrib 1 ((argsortDesc (bm25Get (tokenize query))).take (k * 3)) q₀.1 +
        rrfContrib alpha ((vectorRanked documents (vsearch documents.length)).take (k * 3))
          q₀.1 := by
      rw [← hq2]
      unfold rrfPool
      rw [lookup0_rrfMap, sumContrib_eq_rrfContrib _ _ _ hnB, sumContrib_eq_rrfContrib _ _ _ hv]
    have h₁ := rrfContrib_le 1 ((argsortDesc (bm25Get (tokenize query))).take (k * 3)) q₀.1
      (by norm_num)
    have h₂ := rrfContrib_le alpha
      ((vectorRanked documents (vsearch documents.length)).take (k * 3)) q₀.1 ha
    show q₀.2 ≤ (1 + alpha) / 61
    rw [hq2']
    have hsum : (1 : ℚ) / 61 + alpha / 61 = (1 + alpha) / 61 := by ring
    linarith
  refine ⟨hbound, fun ha1 => ?_⟩
  have hthr : ∀ p ∈ hybridSearch documents bm25Get vsearch query k alpha,
      p.2 < (0.2 : ℚ) := by
    intro p hp
    have h1 := hbound p hp
    have h02 : (0.2 : ℚ) = 1 / 5 := by norm_num
    rw [h02]
    linarith
  refine ⟨hthr, fun hne => ?_⟩
  have hfil : ((hybridSearch documents bm25Get vsearch query k alpha).filter
      (fun p => (0.2 : ℚ) < p.2)) = [] := by
    rw [List.filter_eq_nil_iff]
    intro p hp
    simp only [decide_eq_true_eq]
    exact not_lt.2 (le_of_lt (hthr p hp))
  unfold retrieveContextFrom
  rw [hfil]
  simp only [List.map_nil]
  rw [if_pos ⟨trivial, hne⟩]

/-- Witness for C10 at the concrete instance of the C5 witness with
`alpha = 1`. -/
theorem C10_fused_scores_below_threshold_witness :
    tokenize "aa bb" ≠ [] ∧ (0 : ℚ) ≤ 1 ∧
    ∀ p ∈ hybridSearch ["aa", "bb"] (fun _ => [(1 : ℚ), 0])
        (fun _ => [("aa", (1 : ℚ)), ("bb", 0)]) "aa bb" 1 1,
      p.2 ≤ (1 + 1) / 61 :=
  ⟨by decide, by decide,
    (C10_fused_scores_below_threshold ["aa", "bb"] (fun _ => [(1 : ℚ), 0])
      (fun _ => [("aa", (1 : ℚ)), ("bb", 0)]) "aa bb" 1 1
      (by decide) (by decide) (by decide)).1⟩

/-- Every iteration of the budget loop either exits with the recomputed
estimate within budget, or decrements `k`, or takes the terminal truncation
branch at `k = minK`; fuel exceeding `k - minK` suffices and the loop runs
at most `k - minK + 1` iterations. -/
lemma budgetLoop_spec (S : Sched) (fuel : Nat) :
    ∀ (k iter : Nat) (conv : String), S.minK ≤ k → k - S.minK < fuel →
    ∃ r, budgetLoop S fuel k conv iter = some r ∧
      r.steps ≤ k - S.minK + 1 ∧
      (r.truncatedExit = false →
        estimateTokens r.conversationContext + estimateTokens r.retrieved + S.queryTokens ≤
          S.availableContextTokens) ∧
      (r.truncatedExit = true → r.usedK = S.minK) := by
  induction fuel with
  | zero => intro k iter conv _ hfuel; omega
  | succ fuel ih =>
    intro k iter conv hmin hfuel
    simp only [budgetLoop]
    split
    · rename_i hfits
      refine ⟨_, rfl, ?_, fun _ => hfits, fun hc => Bool.noConfusion hc⟩
      show 1 ≤ k - S.minK + 1
      omega
    · rename_i hnofit
      split
      · rename_i hsum
        refine ⟨_, rfl, ?_, fun _ => hsum.2.2, fun hc => Bool.noConfusion hc⟩
        show 1 ≤ k - S.minK + 1
        omega
      · rename_i hnosum
        split
        · rename_i hdec
          rw [Nat.max_eq_right (by omega : S.minK ≤ k - 1)]
          obtain ⟨r, hr, hsteps, hfit, htr⟩ := ih (k - 1) (iter + 1)
            (summaryStep S conv iter) (by omega) (by omega)
          rw [hr]
          refine ⟨_, rfl, ?_, fun h => hfit h, fun h => htr h⟩
          show r.steps + 1 ≤ k - S.minK + 1
          omega
        · rename_i hnodec
          refine ⟨_, rfl, ?_, fun hc => Bool.noConfusion hc, fun _ => ?_⟩
          · show 1 ≤ k - S.minK + 1
            omega
          · show k = S.minK
            omega

/-- Claim C1: for every query, conversation context, `desiredK >= minK` and
available token budget, the Context Budget Scheduler loop of the chat turn
terminates within `(desiredK - minK + 1) + 2` loop steps, and on exit the
recomputed estimated total (conversation + retrieved + query tokens) is at
most the available budget, except only when the exit is through the terminal
hard-truncation branch, which is taken at `k = minK`. -/
theorem C1_budget_scheduler_bounded (S : Sched) (desiredK iter : Nat) (conv : String)
    (h : S.minK ≤ desiredK) :
    ∃ r, budgetLoop S ((desiredK - S.minK + 1) + 2) desiredK conv iter = some r ∧
      r.steps ≤ (desiredK - S.minK + 1) + 2 ∧
      (r.truncatedExit = false →
        estimateTokens r.conversationContext + estimateTokens r.retrieved + S.queryTokens ≤
          S.availableContextTokens) ∧
      (r.truncatedExit = true → r.usedK = S.minK) := by
  obtain ⟨r, hr, hsteps, hfit, htr⟩ :=
    budgetLoop_spec S ((desiredK - S.minK + 1) + 2) desiredK iter conv h (by omega)
  exact ⟨r, hr, by omega, hfit, htr⟩

/-- Witness for C1: a scheduler whose budget is zero, `desiredK = 2`,
`minK = 1`. -/
theorem C1_budget_scheduler_bounded_witness :
    (1 : Nat) ≤ 2 ∧
    ∃ r, budgetLoop ⟨fun _ => "", 0, 0, false, fun _ => none, 1⟩ ((2 - 1 + 1) + 2) 2 "" 0 =
        some r ∧
      r.steps ≤ (2 - 1 + 1) + 2 ∧
      (r.truncatedExit = false →
        estimateTokens r.conversationContext + estimateTokens r.retrieved + 0 ≤ 0) ∧
      (r.truncatedExit = true → r.usedK = 1) :=
  ⟨by decide,
    C1_budget_scheduler_bounded ⟨fun _ => "", 0, 0, false, fun _ => none, 1⟩ 2 0 ""
      (by decide)⟩

/-- Claim C4 (amended): the turn takes the GreetingShortcut path if and only
if the query is classified Greeting and not Informational, where Greeting
means the trimmed, lowercased query is a single word from the fixed list or
is a query of at most two words equal to one of the fixed polite phrases
(so the three-word listed phrase "thanks a lot" is never classified
Greeting), and Informational means it contains "?", exceeds 40 characters,
or contains a legal keyword. -/
theorem C4_greeting_shortcut_amended (P : Pipeline) (sessionId query : String)
    (includeHistory : Bool) :
    ((chat P sessionId query includeHistory).note = some "retrieval_skipped_greeting" ↔
      (isGreeting query = true ∧ isInformational query = false)) ∧
    (isGreeting query = true ↔ (query ≠ "" ∧ greetingSpec query)) ∧
    (isInformational query = true ↔ (query ≠ "" ∧ informationalSpec query)) ∧
    isGreeting "thanks a lot" = false := by
  refine ⟨?_, ?_, ?_, by decide⟩
  · by_cases hg : (isGreeting query && ! isInformational query) = true
    · unfold chat
      rw [if_pos hg]
      simp only [Bool.and_eq_true, Bool.not_eq_true'] at hg
      simp [hg]
    · unfold chat
      rw [if_neg hg]
      simp only [Bool.and_eq_true, Bool.not_eq_true'] at hg
      show (none : Option String) = some "retrieval_skipped_greeting" ↔ _
      simp [hg]
  · unfold isGreeting greetingSpec
    by_cases hq : query = ""
    · simp [hq]
    · simp only [if_neg hq]
      split_ifs with h1 h2 <;> simp_all
  · unfold isInformational informationalSpec
    by_cases hq : query = ""
    · simp [hq]
    · simp only [if_neg hq]
      split_ifs with h1 h2 <;> simp_all [List.any_eq_true]

/-- Counterexample to claim C4 as stated: "thanks a lot" is one of the
polite phrases and is not informational, yet the classifier rejects it (its
three words fail the two-word guard), so the turn does not take the
greeting shortcut: at a concrete pipeline the chat note is absent. -/
theorem C4_thanks_a_lot_not_greeting :
    isGreeting "thanks a lot" = false ∧
    ("thanks a lot" : String) ∈ greetPhrases ∧
    isInformational "thanks a lot" = false ∧
    (chat ⟨[], fun _ => [], fun _ _ => [], false, false, 0, 0, 0, 1,
      fun _ => Except.error "", fun _ => Except.error "", fun _ => "", fun _ _ => none⟩
      "s" "thanks a lot" true).note = none := by decide

/-- Claim C6: a query starting (case-insensitively, after trimming) with an
informational starter phrase is returned unchanged by the rewrite heuristic,
whatever the conversation context and whatever the generator would return
(rule 3 short-circuits before the follow-up pattern check); in particular
"explain that article" is not rewritten despite containing "that". -/
theorem C6_informational_starter_no_rewrite (P : Pipeline)
    (query conversationContext : String)
    (h : informationalStarters.any
      (fun st => st.data.isPrefixOf (pyStrip (pyLower query)).data) = true) :
    rewriteQuery P query conversationContext = query := by
  unfold rewriteQuery
  split_ifs <;> rfl

/-- Witness for C6: "explain that article", with a generator that would
return a long rewrite, is returned unchanged. -/
theorem C6_informational_starter_no_rewrite_witness :
    informationalStarters.any
      (fun st => st.data.isPrefixOf (pyStrip (pyLower "explain that article")).data) = true ∧
    rewriteQuery ⟨[], fun _ => [], fun _ _ => [], false, false, 0, 0, 0, 1,
      fun _ => Except.error "",
      fun _ => Except.ok "a very long rewritten question with far more words than the original",
      fun _ => "", fun _ _ => none⟩
      "explain that article" "prior context about Article 21" = "explain that article" :=
  ⟨by decide,
    C6_informational_starter_no_rewrite _ "explain that article"
      "prior context about Article 21" (by decide)⟩

/-- Claim C7: the rewrite heuristic returns either the original query or a
generated rewrite of word count at most twice the original's, and whenever
the generator call fails it returns the original query unchanged. -/
theorem C7_rewrite_bound (P : Pipeline) (query conversationContext : String) :
    (rewriteQuery P query conversationContext = query ∨
      pyWordCount (rewriteQuery P query conversationContext) ≤ 2 * pyWordCount query) ∧
    (∀ e, P.completeRewrite (rewritePrompt conversationContext query) = Except.error e →
      rewriteQuery P query conversationContext = query) := by
  constructor
  · unfold rewriteQuery
    split_ifs with h1 h2 h3 h4 h5
    · exact Or.inl rfl
    · exact Or.inl rfl
    · exact Or.inl rfl
    · exact Or.inl rfl
    · exact Or.inl rfl
    · cases hc : P.completeRewrite (rewritePrompt conversationContext query) with
      | error e => exact Or.inl rfl
      | ok out =>
        show (if 2 * pyWordCount query < pyWordCount (pyStrip out) then query
            else pyStrip out) = query ∨
          pyWordCount (if 2 * pyWordCount query < pyWordCount (pyStrip out) then query
            else pyStrip out) ≤ 2 * pyWordCount query
        by_cases hlen : 2 * pyWordCount query < pyWordCount (pyStrip out)
        · rw [if_pos hlen]
          exact Or.inl rfl
        · rw [if_neg hlen]
          exact Or.inr (by omega)
  · intro e he
    unfold rewriteQuery
    split_ifs with h1 h2 h3 h4 h5 <;> try rfl
    rw [he]

/-- Claim C8: with a non-empty retrieval result list, the retrieved context
is the blank-line concatenation of exactly the passages scoring strictly
above 0.2; if no passage exceeds the threshold, it is the blank-line
concatenation of the raw top-k passages regardless of score. -/
theorem C8_threshold_filter_fallback (results : List (String × ℚ)) (k : Nat)
    (hne : results ≠ []) :
    ((∃ p ∈ results, (0.2 : ℚ) < p.2) →
      retrieveContextFrom results k =
        joinBlank ((results.filter (fun p => (0.2 : ℚ) < p.2)).map Prod.fst)) ∧
    ((∀ p ∈ results, p.2 ≤ (0.2 : ℚ)) →
      retrieveContextFrom results k = joinBlank ((results.take k).map Prod.fst)) := by
  constructor
  · rintro ⟨p, hp, hgt⟩
    simp only [retrieveContextFrom]
    rw [if_neg]
    rintro ⟨hmap, -⟩
    have hmem : p ∈ results.filter (fun q => (0.2 : ℚ) < q.2) :=
      List.mem_filter.2 ⟨hp, by simpa using hgt⟩
    rw [List.map_eq_nil] at hmap
    rw [hmap] at hmem
    cases hmem
  · intro hall
    simp only [retrieveContextFrom]
    rw [if_pos]
    refine ⟨?_, hne⟩
    have hfil : results.filter (fun q => (0.2 : ℚ) < q.2) = [] := by
      rw [List.filter_eq_nil_iff]
      intro q hq
      simp only [decide_eq_true_eq]
      exact not_lt.2 (hall q hq)
    rw [hfil, List.map_nil]

/-- Witness for C8: a two-element result list with one passage above the
threshold. -/
theorem C8_threshold_filter_fallback_witness :
    ([("a", (1 : ℚ)), ("b", 0)] : List (String × ℚ)) ≠ [] ∧
    retrieveContextFrom [("a", (1 : ℚ)), ("b", 0)] 1 =
      joinBlank ((([("a", (1 : ℚ)), ("b", 0)] : List (String × ℚ)).filter
        (fun p => (0.2 : ℚ) < p.2)).map Prod.fst) :=
  ⟨by decide,
    (C8_threshold_filter_fallback [("a", (1 : ℚ)), ("b", 0)] 1 (by decide)).1
      ⟨("a", (1 : ℚ)), by decide, by norm_num⟩⟩

/-- Claim C9: the response-generation step never propagates a generator
failure: when the generator call fails, `generate_response` returns the
formatted string "Error generating response: ..." in place of the answer,
and the chat turn completes, returning that string as its response. -/
theorem C9_generation_failure_contained (P : Pipeline)
    (sessionId query context conversationContext : String) (includeHistory : Bool)
    (e : String)
    (hfail : ∀ s, P.completeAnswer s = Except.error e) :
    generateResponse P query context conversationContext =
      "Error generating response: " ++ e ∧
    (chat P sessionId query includeHistory).response = "Error generating response: " ++ e := by
  have hg : ∀ q c cc, generateResponse P q c cc = "Error generating response: " ++ e := by
    intro q c cc
    unfold generateResponse
    rw [hfail]
  refine ⟨hg _ _ _, ?_⟩
  unfold chat
  split
  · exact hg _ _ _
  · exact hg _ _ _

/-- Witness for C9: a pipeline whose generator always fails with "boom". -/
theorem C9_generation_failure_contained_witness :
    (chat ⟨["d"], fun _ => [(1 : ℚ)], fun _ _ => [("d", (1 : ℚ))], true, true, 6000, 1000, 2, 1,
      fun _ => Except.error "boom", fun _ => Except.error "x", fun _ => "", fun _ _ => none⟩
      "s" "what is law" true).response = "Error generating response: " ++ "boom" :=
  (C9_generation_failure_contained
    ⟨["d"], fun _ => [(1 : ℚ)], fun _ _ => [("d", (1 : ℚ))], true, true, 6000, 1000, 2, 1,
      fun _ => Except.error "boom", fun _ => Except.error "x", fun _ => "", fun _ _ => none⟩
    "s" "what is law" "" "" true "boom" (fun _ => rfl)).2

end LegalRag
